import Mathlib

/-
Shallow embedding of the SecureGen credential generator and history-query
engine (src/services/api.ts, src/components/HistoryTable.tsx, src/types.ts).

Modelling conventions:
- JS strings are Lean `String`s; where character-level recursion is needed
  (the username synthesizer) we work on `List Char`.
- ISO-8601 instants are modelled as epoch minutes (`Int`); a calendar-day
  string `YYYY-MM-DD` is modelled by its day number, since lexicographic
  order on such strings coincides with numeric order on day numbers.
- A thrown JS error is `Except.error`; a normal return is `Except.ok`.
- Random sources (crypto.getRandomValues, Math.random) are modelled as
  oracle functions supplied by the caller: the k-th draw of a given kind is
  the oracle applied to k, reduced modulo the range used in the source.
- localStorage state is passed explicitly: each mock API method takes the
  current store and returns the new one.
-/

/-! ## Character classes (api.ts lines 36-39) -/

def lowercaseChars : List Char :=
  ['a','b','c','d','e','f','g','h','i','j','k','l','m',
   'n','o','p','q','r','s','t','u','v','w','x','y','z']

def uppercaseChars : List Char :=
  ['A','B','C','D','E','F','G','H','I','J','K','L','M',
   'N','O','P','Q','R','S','T','U','V','W','X','Y','Z']

def digitChars : List Char :=
  ['0','1','2','3','4','5','6','7','8','9']

def symbolChars : List Char :=
  ['!','@','#','$','%','^','&','*','(',')','_','+','-','=',
   '[',']','\x7b','\x7d','|',';',':',',','.','<','>','?']

/-! ## Data model (src/types.ts) -/

inductive UsernameType where
  | manual
  | pattern
deriving DecidableEq

structure GenerateConfig where
  username : Option String
  usernameType : UsernameType
  usernamePattern : Option (List Char)
  length : Nat
  useUppercase : Bool
  useNumbers : Bool
  useSymbols : Bool
  remark : Option String
  group : Option String
deriving DecidableEq

structure CredentialRecord where
  id : String
  user_id : String
  username : String
  password_plain : String
  password_hash : String
  created_at : Int
  remark : Option String
  group : Option String
deriving DecidableEq

structure User where
  id : String
  username : String
deriving DecidableEq

structure MockUser where
  id : String
  username : String
  password : String
deriving DecidableEq

structure AuthResponse where
  access_token : String
  user_id : String
  user_name : String
deriving DecidableEq

inductive ApiError where
  | unauthorized
  | invalidCredentials
  | usernameTaken
  | notFound
deriving DecidableEq

deriving instance DecidableEq for Except

/-! ## Random Credential Generator (api.ts lines 35-56)

`generateRandomPassword` builds the charset from the toggles (lowercase is
always included), falls back to lowercase if the charset were empty, then
draws `config.length` 32-bit words from `crypto.getRandomValues` and maps
each word `w` to `charset[w % charset.length]`.  `randWord i` models the
i-th 32-bit word. -/

def charsetFor (config : GenerateConfig) : List Char :=
  let cs := lowercaseChars
    ++ (if config.useUppercase then uppercaseChars else [])
    ++ (if config.useNumbers then digitChars else [])
    ++ (if config.useSymbols then symbolChars else [])
  if cs.length = 0 then lowercaseChars else cs

def generateRandomPassword (config : GenerateConfig) (randWord : Nat → Nat) : String :=
  let charset := charsetFor config
  String.mk ((List.range config.length).map fun i =>
    charset.getD ((randWord i % 4294967296) % charset.length) 'a')

/-- Number of 32-bit words `w < N` with `w % n = i`: the weight that index
`i` receives when a uniformly random word is reduced modulo `n`. -/
def countMod (N n i : Nat) : Nat :=
  ((Finset.range N).filter fun w => w % n = i).card

/-- Weight of charset index `i` under the draw `w % charset.length` with `w`
uniform over the 2^32 values a `Uint32Array` cell can hold. -/
def drawCount (config : GenerateConfig) (i : Nat) : Nat :=
  countMod 4294967296 (charsetFor config).length i

/-! ## Pattern-Based Username Synthesizer (api.ts lines 58-88)

Word lists and helpers from lines 59-65; `generateUsernameFromPattern`
(lines 67-88) first loops replacing the first occurrence of each word
placeholder until none remains, then substitutes the character wildcards
`#` and `?` left-to-right with per-match random draws. -/

def ADJECTIVES : List (List Char) :=
  ["Swift".toList, "Silent".toList, "Happy".toList, "Brave".toList,
   "Calm".toList, "Witty".toList, "Fancy".toList, "Bold".toList,
   "Crimson".toList, "Neon".toList, "Blue".toList, "Red".toList,
   "Green".toList]

def NOUNS : List (List Char) :=
  ["Fox".toList, "Eagle".toList, "Panda".toList, "Tiger".toList,
   "Lion".toList, "Hawk".toList, "Wolf".toList, "Bear".toList,
   "Falcon".toList, "Badger".toList, "Shark".toList, "Whale".toList,
   "Cat".toList]

def getRandomAdjective (pick : Nat) : List Char :=
  ADJECTIVES.getD (pick % ADJECTIVES.length) []

def getRandomNoun (pick : Nat) : List Char :=
  NOUNS.getD (pick % NOUNS.length) []

def digitChar (n : Nat) : Char := digitChars.getD n '0'

/-- Decimal digits of `n < 1000`, no zero padding (the shape produced by
`Math.floor(Math.random() * 1000).toString()`). -/
def natChars3 (n : Nat) : List Char :=
  if n < 10 then [digitChar n]
  else if n < 100 then [digitChar (n / 10), digitChar (n % 10)]
  else [digitChar (n / 100), digitChar (n / 10 % 10), digitChar (n % 10)]

def getRandomNumberChars (pick : Nat) : List Char := natChars3 (pick % 1000)

def getRandomDigit (pick : Nat) : Char := digitChar (pick % 10)

def getRandomLetter (pick : Nat) : Char := lowercaseChars.getD (pick % 26) 'a'

def tokAdjective : List Char :=
  ['\x7b','a','d','j','e','c','t','i','v','e','\x7d']

def tokNoun : List Char :=
  ['\x7b','n','o','u','n','\x7d']

def tokNumber : List Char :=
  ['\x7b','n','u','m','b','e','r','\x7d']

def defaultPatternChars : List Char := tokAdjective ++ tokNoun ++ tokNumber

/-- JS `String.replace` with a string pattern: replace the first occurrence
of `pat` in `s` by `rep` (identity when `pat` does not occur). -/
def replaceFirst : List Char → List Char → List Char → List Char
  | [], _, _ => []
  | c :: rest, pat, rep =>
    if pat.isPrefixOf (c :: rest) then rep ++ (c :: rest).drop pat.length
    else c :: replaceFirst rest pat rep

/-- JS `String.includes` for a substring pattern. -/
def hasSubstr : List Char → List Char → Bool
  | [], pat => pat.isEmpty
  | c :: rest, pat => pat.isPrefixOf (c :: rest) || hasSubstr rest pat

/-- The `while (result.includes(tok)) result = result.replace(tok, pick())`
loop, with explicit fuel (each iteration removes one occurrence and the
words substituted contain no brace, so `s.length + 1` fuel is ample). -/
def expandToken (tok : List Char) (pick : Nat → List Char) :
    Nat → Nat → List Char → List Char
  | 0, _, s => s
  | fuel + 1, k, s =>
    if hasSubstr s tok then
      expandToken tok pick fuel (k + 1) (replaceFirst s tok (pick k))
    else s

/-- Oracle bundling the independent random draws of the synthesizer: the
k-th adjective / noun / number / digit / letter draw. -/
structure UsernameOracle where
  adjPick : Nat → Nat
  nounPick : Nat → Nat
  numPick : Nat → Nat
  digitPick : Nat → Nat
  letterPick : Nat → Nat

def expandPlaceholders (o : UsernameOracle) (s : List Char) : List Char :=
  let s1 := expandToken tokAdjective
    (fun k => getRandomAdjective (o.adjPick k)) (s.length + 1) 0 s
  let s2 := expandToken tokNoun
    (fun k => getRandomNoun (o.nounPick k)) (s1.length + 1) 0 s1
  expandToken tokNumber
    (fun k => getRandomNumberChars (o.numPick k)) (s2.length + 1) 0 s2

/-- JS `String.replace(/w/g, cb)`: every occurrence of the single character
`w` is replaced by an independent draw (`pick k` for the k-th match). -/
def replaceWildcard (w : Char) (pick : Nat → Char) : Nat → List Char → List Char
  | _, [] => []
  | k, c :: rest =>
    if c = w then pick k :: replaceWildcard w pick (k + 1) rest
    else c :: replaceWildcard w pick k rest

def generateUsernameFromPattern (o : UsernameOracle) (pattern : List Char) :
    List Char :=
  let p := if pattern.isEmpty then defaultPatternChars else pattern
  let expanded := expandPlaceholders o p
  replaceWildcard '?' (fun k => getRandomLetter (o.letterPick k)) 0
    (replaceWildcard '#' (fun k => getRandomDigit (o.digitPick k)) 0 expanded)

/-! ## Strength Estimator (PasswordGenerator getStrength, lines 822-868)

Translation of the imperative score accumulation: base length score, the
three toggle bonuses (each also incrementing the variety count), the < 8
length cap, the low-variety penalty (a plain `if`, not an `else if`), and
the final clamps to [0, 100]. -/

def getStrengthScore (config : GenerateConfig) : Int :=
  let s0 : Int := min ((config.length : Int) * 4) 50
  let varietyCount : Nat := 1
    + (if config.useUppercase then 1 else 0)
    + (if config.useNumbers then 1 else 0)
    + (if config.useSymbols then 1 else 0)
  let s1 := s0
    + (if config.useUppercase then 15 else 0)
    + (if config.useNumbers then 15 else 0)
    + (if config.useSymbols then 20 else 0)
  let s2 := if config.length < 8 then min s1 20 else s1
  let s3 := if varietyCount < 2 ∧ config.length < 20 then s2 - 10 else s2
  let s4 := if s3 < 0 then 0 else s3
  if s4 > 100 then 100 else s4

def getStrengthLabel (config : GenerateConfig) : String :=
  let s := getStrengthScore config
  if s < 40 then "Weak"
  else if s < 70 then "Moderate"
  else if s < 90 then "Strong"
  else "Very Strong"

/-- Strength score as the claim words it: the 10-point penalty is applied
only in the `length ≥ 8` branch ("otherwise ... subtracting 10"). -/
def claimStrengthScore (config : GenerateConfig) : Int :=
  let base : Int := min ((config.length : Int) * 4) 50
    + (if config.useUppercase then 15 else 0)
    + (if config.useNumbers then 15 else 0)
    + (if config.useSymbols then 20 else 0)
  let varietyCount : Nat := 1
    + (if config.useUppercase then 1 else 0)
    + (if config.useNumbers then 1 else 0)
    + (if config.useSymbols then 1 else 0)
  let adjusted :=
    if config.length < 8 then min base 20
    else if varietyCount < 2 ∧ config.length < 20 then base - 10
    else base
  max 0 (min adjusted 100)

/-- Strength score in the claim's declarative style but with the corrected
rule: the penalty applies whenever variety < 2 and length < 20, also when
length < 8 (after the ≤ 20 cap). -/
def amendedStrengthScore (config : GenerateConfig) : Int :=
  let base : Int := min ((config.length : Int) * 4) 50
    + (if config.useUppercase then 15 else 0)
    + (if config.useNumbers then 15 else 0)
    + (if config.useSymbols then 20 else 0)
  let varietyCount : Nat := 1
    + (if config.useUppercase then 1 else 0)
    + (if config.useNumbers then 1 else 0)
    + (if config.useSymbols then 1 else 0)
  let capped := if config.length < 8 then min base 20 else base
  let adjusted :=
    if varietyCount < 2 ∧ config.length < 20 then capped - 10 else capped
  max 0 (min adjusted 100)

/-! ## History Query Engine: date filter (HistoryTable.tsx lines 146-157)

`new Date(r.created_at).toISOString().split('T')[0]` renders the instant as
a UTC calendar day; instants are epoch minutes, so the day number is the
floor division by 1440.  Day-string comparison (`>=`, `<=` on YYYY-MM-DD)
is order-isomorphic to integer comparison of day numbers. -/

def utcDayOf (t : Int) : Int := Int.fdiv t 1440

/-- Calendar day of instant `t` in a zone `tzOffset` minutes east of UTC. -/
def localDayOf (tzOffset t : Int) : Int := Int.fdiv (t + tzOffset) 1440

def matchesDate (dateStart dateEnd : Option Int) (createdAt : Int) : Bool :=
  if dateStart.isSome || dateEnd.isSome then
    (match dateStart with
     | none => true
     | some s => decide (s ≤ utcDayOf createdAt)) &&
    (match dateEnd with
     | none => true
     | some e => decide (utcDayOf createdAt ≤ e))
  else true

/-- The date filter as the claim words it: the record's creation instant is
normalized to a calendar day in the record's local zone. -/
def matchesDateLocalClaim (tzOffset : Int) (dateStart dateEnd : Option Int)
    (createdAt : Int) : Bool :=
  if dateStart.isSome || dateEnd.isSome then
    (match dateStart with
     | none => true
     | some s => decide (s ≤ localDayOf tzOffset createdAt)) &&
    (match dateEnd with
     | none => true
     | some e => decide (localDayOf tzOffset createdAt ≤ e))
  else true

/-! ## History Query Engine: grouped view (HistoryTable.tsx lines 181-189, 721)

`groupedRecords` accumulates a plain JS object keyed by
`record.group || 'Uncategorized'` and the grouped view iterates it with
`Object.entries`.  Own-property order of a JS object is: keys that are
canonical array indices first, in ascending numeric order, then the
remaining string keys in property-creation order. -/

def labelOf (r : CredentialRecord) : String :=
  match r.group with
  | none => "Uncategorized"
  | some g => if g = "" then "Uncategorized" else g

/-- The own property names of `Object.prototype`: a plain object literal
inherits these, so `groups[key]` yields a truthy value for every one of
them (they are functions, and `__proto__` yields `Object.prototype`
itself). -/
def objectPrototypeKeys : List String :=
  ["constructor", "hasOwnProperty", "isPrototypeOf", "propertyIsEnumerable",
   "toLocaleString", "toString", "valueOf", "__defineGetter__",
   "__defineSetter__", "__lookupGetter__", "__lookupSetter__", "__proto__"]

/-- The own-property value of `groups[key]`, when the key is an own
property of the accumulated object. -/
def ownValue (props : List (String × List CredentialRecord)) (key : String) :
    Option (List CredentialRecord) :=
  match props.find? (fun p => p.1 == key) with
  | some p => some p.2
  | none => none

/-- Truthiness of the lookup `groups[key]` on a plain object literal: an
own array is truthy (even when empty), a member inherited from
`Object.prototype` is truthy, and `undefined` is falsy. -/
def jsTruthy (props : List (String × List CredentialRecord)) (key : String) :
    Bool :=
  (ownValue props key).isSome || objectPrototypeKeys.contains key

/-- One iteration of `if (!groups[g]) groups[g] = []; groups[g].push(record)`
on a JS object modelled as its own-property list in creation order.  The
truthiness test consults the prototype chain, so for a key naming an
inherited `Object.prototype` member the initialization is skipped and
`groups[g].push` — called on the inherited non-array value — throws a
TypeError, modelled as `none`.  (The assignment runs only when the lookup
was `undefined`, so it always creates an ordinary own property.) -/
def objInsert (props : List (String × List CredentialRecord)) (key : String)
    (r : CredentialRecord) : Option (List (String × List CredentialRecord)) :=
  let props1 := if !jsTruthy props key then props ++ [(key, [])] else props
  match ownValue props1 key with
  | some _ =>
    some (props1.map (fun p => if p.1 == key then (p.1, p.2 ++ [r]) else p))
  | none => none

/-- The accumulation step as it behaves on an ordinary label (one that
names no `Object.prototype` member): append to the own array when the key
is already an own property, otherwise create the key at the end.
`objInsert` agrees with `some` of this on such labels. -/
def insertOwn (props : List (String × List CredentialRecord)) (key : String)
    (r : CredentialRecord) : List (String × List CredentialRecord) :=
  if props.any (fun p => p.1 == key) then
    props.map (fun p => if p.1 == key then (p.1, p.2 ++ [r]) else p)
  else props ++ [(key, [r])]

/-- The `forEach` accumulation over the sequence; a thrown TypeError aborts
the loop and propagates (`none`). -/
def groupedProps (recs : List CredentialRecord) :
    Option (List (String × List CredentialRecord)) :=
  recs.foldl (fun m r =>
    match m with
    | none => none
    | some m2 => objInsert m2 (labelOf r) r) (some [])

def isDigitChar (c : Char) : Bool := decide ('0' ≤ c) && decide (c ≤ '9')

def parseNatChars (cs : List Char) : Nat :=
  cs.foldl (fun a c => a * 10 + (c.toNat - 48)) 0

/-- ECMAScript array-index property key: the canonical decimal form of an
integer in [0, 2^32 - 2]. -/
def isArrayIndexKey (s : String) : Bool :=
  match s.toList with
  | [] => false
  | c :: rest =>
    (c :: rest).all isDigitChar
      && (rest.isEmpty || c != '0')
      && parseNatChars (c :: rest) < 4294967295

def insertByNum (p : String × List CredentialRecord) :
    List (String × List CredentialRecord) → List (String × List CredentialRecord)
  | [] => [p]
  | q :: rest =>
    if parseNatChars p.1.toList ≤ parseNatChars q.1.toList then p :: q :: rest
    else q :: insertByNum p rest

def sortByNum :
    List (String × List CredentialRecord) → List (String × List CredentialRecord)
  | [] => []
  | p :: rest => insertByNum p (sortByNum rest)

/-- `Object.entries` own-property order applied to the accumulated object. -/
def entriesOf (props : List (String × List CredentialRecord)) :
    List (String × List CredentialRecord) :=
  sortByNum (props.filter fun p => isArrayIndexKey p.1)
    ++ props.filter fun p => !isArrayIndexKey p.1

/-- The grouped view as iterated by the component: `Object.entries` of the
object accumulated over the filtered-and-sorted sequence (propagating the
TypeError of a prototype-named group label). -/
def groupedRecords (recs : List CredentialRecord) :
    Option (List (String × List CredentialRecord)) :=
  (groupedProps recs).map entriesOf

/-- First occurrence of each string, in sequence order, skipping the ones
already seen. -/
def dedupAcc (seen : List String) : List String → List String
  | [] => []
  | x :: xs => if x ∈ seen then dedupAcc seen xs else x :: dedupAcc (x :: seen) xs

def firstOccurrences (l : List String) : List String := dedupAcc [] l

/-! ## Record Lifecycle Manager / auth (api.ts lines 92-349, mock branch) -/

def defaultAdminUser : MockUser := ⟨"default-admin-uuid", "admin", "admin"⟩

/-- The seeding block at the top of `login` (lines 101-108): a default
admin/admin account is appended when no user named "admin" exists yet. -/
def seedAdmin (users : List MockUser) : List MockUser :=
  if users.any (fun u => u.username == "admin") then users
  else users ++ [defaultAdminUser]

/-- `api.login` in mock mode (lines 96-120): seeds the default admin, then
looks for a user matching both username and password; on a miss the user
store keeps its seeded value and the call throws `Invalid credentials`. -/
def login (users : List MockUser) (username password : String) (now : Int) :
    List MockUser × Except ApiError AuthResponse :=
  let users2 := seedAdmin users
  match users2.find? (fun u => u.username == username && u.password == password) with
  | some u =>
    (users2, .ok ⟨"mock_token_" ++ u.id ++ "_" ++ toString now, u.id, u.username⟩)
  | none => (users2, .error .invalidCredentials)

structure RecordUpdates where
  group : Option String
  remark : Option String
deriving DecidableEq

/-- The spread `{ ...r, ...updates }`: only the fields present in the
partial update are overwritten. -/
def applyUpdates (r : CredentialRecord) (u : RecordUpdates) : CredentialRecord :=
  { r with
    group := match u.group with | some g => some g | none => r.group
    remark := match u.remark with | some m => some m | none => r.remark }

/-- `api.getHistory` (lines 245-267): throws `Unauthorized` with no session,
otherwise returns the stored records filtered to the caller's user_id. -/
def getHistory (cu : Option User) (store : List CredentialRecord) :
    Except ApiError (List CredentialRecord) :=
  match cu with
  | none => .error .unauthorized
  | some u => .ok (store.filter fun r => r.user_id == u.id)

/-- `api.updateRecord` (lines 269-284): maps over the whole store replacing
the record whose id matches; no session is consulted and no id miss is
reported. -/
def updateRecord (store : List CredentialRecord) (id : String)
    (updates : RecordUpdates) : Except ApiError (List CredentialRecord) :=
  .ok (store.map fun r => if r.id == id then applyUpdates r updates else r)

/-- `api.updateRecords` (lines 286-301): batch variant, `{ group? }` only. -/
def updateRecords (store : List CredentialRecord) (ids : List String)
    (groupUpdate : Option String) : Except ApiError (List CredentialRecord) :=
  .ok (store.map fun r =>
    if ids.contains r.id then
      { r with group := match groupUpdate with | some g => some g | none => r.group }
    else r)

/-- `api.deleteRecord` (lines 303-315). -/
def deleteRecord (store : List CredentialRecord) (id : String) :
    Except ApiError (List CredentialRecord) :=
  .ok (store.filter fun r => r.id != id)

/-- `api.deleteRecords` (lines 317-330). -/
def deleteRecords (store : List CredentialRecord) (ids : List String) :
    Except ApiError (List CredentialRecord) :=
  .ok (store.filter fun r => !ids.contains r.id)

/-- `api.clearHistory` (lines 332-348): with no session it returns silently
(`if (!currentUser) return;`); otherwise it keeps exactly the records not
belonging to the caller. -/
def clearHistory (cu : Option User) (store : List CredentialRecord) :
    Except ApiError (List CredentialRecord) :=
  match cu with
  | none => .ok store
  | some u => .ok (store.filter fun r => r.user_id != u.id)

/-- `api.generateAndSave` (lines 192-222): throws `Unauthorized` with no
session; otherwise generates the password and username, assembles the
record (owned by the caller) and prepends it to the store.  `newId`,
`hashSuffix` and `now` stand for `crypto.randomUUID()`, the random hash
suffix and `new Date()`. -/
def generateAndSave (cu : Option User) (config : GenerateConfig)
    (randWord : Nat → Nat) (o : UsernameOracle) (newId hashSuffix : String)
    (now : Int) (store : List CredentialRecord) :
    Except ApiError (CredentialRecord × List CredentialRecord) :=
  match cu with
  | none => .error .unauthorized
  | some u =>
    let pw := generateRandomPassword config randWord
    let un : String :=
      if config.usernameType = UsernameType.manual
          && (config.username.getD "") != ""
          && (config.username.getD "").trim != "" then
        config.username.getD ""
      else
        String.mk (generateUsernameFromPattern o
          (match config.usernamePattern with
           | some p => if p.isEmpty then defaultPatternChars else p
           | none => defaultPatternChars))
    let newRecord : CredentialRecord :=
      ⟨newId, u.id, un, pw, "simulated_hash_" ++ hashSuffix, now,
       config.remark, config.group⟩
    .ok (newRecord, newRecord :: store)

/-- Payload list of a mock call that returned normally ([] on a throw). -/
def okD (e : Except ApiError (List CredentialRecord)) : List CredentialRecord :=
  match e with
  | .ok l => l
  | .error _ => []

/-! ## Concrete fixtures used by the closed theorems below -/

def cfgLowerOnly : GenerateConfig :=
  { username := none, usernameType := .pattern, usernamePattern := none,
    length := 16, useUppercase := false, useNumbers := false,
    useSymbols := false, remark := none, group := none }

def cfgShort : GenerateConfig :=
  { username := none, usernameType := .pattern, usernamePattern := none,
    length := 4, useUppercase := false, useNumbers := false,
    useSymbols := false, remark := none, group := none }

def demoRecordA : CredentialRecord :=
  ⟨"r1", "A", "alice", "pw1", "h1", 100, none, some "G"⟩

def demoRecordB : CredentialRecord :=
  ⟨"r2", "B", "bob", "pw2", "h2", 500, none, none⟩

def userA : User := ⟨"A", "alice"⟩

def recNum1 : CredentialRecord := ⟨"a", "A", "u1", "p", "h", 0, none, some "1"⟩

def recNum0 : CredentialRecord := ⟨"b", "A", "u2", "p", "h", 0, none, some "0"⟩

def recWork : CredentialRecord :=
  ⟨"w1", "A", "uw", "p", "h", 0, none, some "Work"⟩

def recNoGroup : CredentialRecord := ⟨"n1", "A", "un", "p", "h", 0, none, none⟩

def recProto : CredentialRecord :=
  ⟨"t1", "A", "ut", "p", "h", 0, none, some "toString"⟩

def usersAdminSecret : List MockUser := [⟨"u1", "admin", "secret"⟩]

def oracleZero : UsernameOracle :=
  ⟨fun _ => 0, fun _ => 0, fun _ => 0, fun _ => 0, fun _ => 0⟩

def patUserHashes : List Char := ['u','s','e','r','_','#','#']

/-! # Theorems -/

/-! ## C7: password length -/

/-- C7: for every config with length L in [4, 64] (and any random words),
`generateRandomPassword` returns a string of exactly L characters. -/
theorem c7_password_length (config : GenerateConfig) (randWord : Nat → Nat)
    (h4 : 4 ≤ config.length) (h64 : config.length ≤ 64) :
    (generateRandomPassword config randWord).length = config.length := by
  simp [generateRandomPassword, String.length]

/-- C7 witness: a concrete 16-character config yields a 16-character
password. -/
theorem c7_witness :
    4 ≤ cfgLowerOnly.length ∧ cfgLowerOnly.length ≤ 64 ∧
    (generateRandomPassword cfgLowerOnly (fun _ => 0)).length = 16 :=
  ⟨by decide, by decide,
   c7_password_length cfgLowerOnly (fun _ => 0) (by decide) (by decide)⟩

/-! ## C2: strength score -/

/-- C2 counterexample: for length 4 with all toggles off the code computes
6 (the cap to 20 is followed by the unconditional −10 penalty), while the
claim's procedure — which applies the penalty only when length ≥ 8 —
computes 16. -/
theorem c2_counterexample :
    getStrengthScore cfgShort = 6 ∧ claimStrengthScore cfgShort = 16 ∧
    getStrengthScore cfgShort ≠ claimStrengthScore cfgShort := by decide

set_option maxHeartbeats 1000000 in
/-- C2 amended: the score is the claim's computation except that the
10-point low-variety penalty is applied whenever variety < 2 and
length < 20, including when length < 8 (after the ≤ 20 cap); the final
result is clamped to [0, 100]. -/
theorem c2_strength_amended (config : GenerateConfig) :
    getStrengthScore config = amendedStrengthScore config := by
  rcases config with ⟨un, ut, up, len, hu, hn, hs, rm, gp⟩
  cases hu <;> cases hn <;> cases hs <;>
    simp only [getStrengthScore, amendedStrengthScore, Bool.false_eq_true,
      if_true, if_false, ite_true, ite_false] <;>
    norm_num <;> split_ifs <;> omega

/-! ## C5: Unauthorized on missing session -/

/-- C5 counterexample: `clearHistory` invoked with no current user session
returns successfully with the store unchanged instead of failing with
`Unauthorized` — the failure is silently swallowed. -/
theorem c5_counterexample :
    clearHistory none [demoRecordB] = Except.ok [demoRecordB] ∧
    clearHistory none [demoRecordB] ≠ Except.error ApiError.unauthorized := by
  decide

/-- C5 amended: `generateAndSave` and `getHistory` fail with `Unauthorized`
when no user session exists, but `clearHistory` with no session silently
returns without error and without touching the store. -/
theorem c5_unauthorized_amended :
    (∀ store : List CredentialRecord,
      getHistory none store = Except.error ApiError.unauthorized) ∧
    (∀ (config : GenerateConfig) (randWord : Nat → Nat) (o : UsernameOracle)
        (newId hashSuffix : String) (now : Int) (store : List CredentialRecord),
      generateAndSave none config randWord o newId hashSuffix now store =
        Except.error ApiError.unauthorized) ∧
    (∀ store : List CredentialRecord, clearHistory none store = Except.ok store) :=
  ⟨fun _ => rfl, fun _ _ _ _ _ _ _ => rfl, fun _ => rfl⟩

/-! ## C3: date filter -/

/-- C3 counterexample: a record created at epoch minute 1430 (23:50 UTC of
day 0) in a zone 60 minutes east of UTC belongs to local calendar day 1;
with start = end = day 1 ("today" locally) the code drops it — it
normalizes via `toISOString`, i.e. to the UTC day 0 — while the claim's
local-zone filter keeps it. -/
theorem c3_counterexample :
    matchesDate (some 1) (some 1) 1430 = false ∧
    matchesDateLocalClaim 60 (some 1) (some 1) 1430 = true := by decide

/-- C3 amended: the record's creation instant is normalized to its UTC
calendar day (`toISOString`), kept iff that day is ≥ the start bound and
≤ the end bound when present (absent bounds impose nothing); with
start = end = d the filter keeps exactly the records whose UTC calendar
day is d. -/
theorem c3_date_filter_amended :
    (∀ (ds de : Option Int) (t : Int),
      matchesDate ds de t = true ↔
        ((∀ s, ds = some s → s ≤ utcDayOf t) ∧
         (∀ e, de = some e → utcDayOf t ≤ e))) ∧
    (∀ d t : Int, matchesDate (some d) (some d) t = true ↔ utcDayOf t = d) := by
  constructor
  · intro ds de t
    cases ds <;> cases de <;> simp [matchesDate] <;> omega
  · intro d t
    simp [matchesDate]
    omega

/-- C3 amended witness: an instant on UTC day 0 passes the filter with
start = end = day 0. -/
theorem c3_witness : matchesDate (some 0) (some 0) 100 = true :=
  (c3_date_filter_amended.2 0 100).mpr (by decide)

/-! ## C6: updateRecord on unknown id -/

/-- C6 counterexample: updating an id that matches no record returns
successfully with the store unchanged — there is no `NotFound` failure. -/
theorem c6_counterexample :
    updateRecord [demoRecordA] "missing-id" ⟨some "NewGroup", none⟩ =
      Except.ok [demoRecordA] ∧
    updateRecord [demoRecordA] "missing-id" ⟨some "NewGroup", none⟩ ≠
      Except.error ApiError.notFound := by decide

/-- C6 amended: for an id matching no record, `updateRecord` is a silent
no-op (returns ok with the store unchanged, not `NotFound`); for an
existing record, fields omitted from the update are left unchanged and
present fields overwrite, with all immutable fields preserved. -/
theorem c6_update_amended :
    (∀ (store : List CredentialRecord) (id : String) (u : RecordUpdates),
      (∀ r ∈ store, r.id ≠ id) → updateRecord store id u = Except.ok store) ∧
    (∀ (r : CredentialRecord) (u : RecordUpdates),
      (u.group = none → (applyUpdates r u).group = r.group) ∧
      (u.remark = none → (applyUpdates r u).remark = r.remark) ∧
      (∀ g, u.group = some g → (applyUpdates r u).group = some g) ∧
      (∀ m, u.remark = some m → (applyUpdates r u).remark = some m) ∧
      (applyUpdates r u).id = r.id ∧
      (applyUpdates r u).username = r.username ∧
      (applyUpdates r u).password_plain = r.password_plain ∧
      (applyUpdates r u).created_at = r.created_at) := by
  constructor
  · intro store rid u h
    unfold updateRecord
    congr 1
    have h2 : ∀ r ∈ store, (if r.id == rid then applyUpdates r u else r) = r := by
      intro r hr
      simp [beq_eq_false_iff_ne.mpr (h r hr)]
    calc store.map (fun r => if r.id == rid then applyUpdates r u else r)
        = store.map (fun r => r) := List.map_congr_left h2
      _ = store := by simp
  · intro r u
    refine ⟨?_, ?_, ?_, ?_, rfl, rfl, rfl, rfl⟩ <;>
      first
        | (intro h; simp [applyUpdates, h])
        | (intro g h; simp [applyUpdates, h])

/-- C6 amended witness: concrete no-op update on a missing id. -/
theorem c6_witness :
    updateRecord [demoRecordA] "zzz" ⟨none, some "note"⟩ =
      Except.ok [demoRecordA] :=
  c6_update_amended.1 [demoRecordA] "zzz" ⟨none, some "note"⟩ (by decide)

/-! ## C1: ownership -/

/-- C1 counterexample: `updateRecord` consults no session at all, so an
operation issued while another user ("B") is logged in mutates the record
owned by "A" whose id it names: the group of A's record changes. -/
theorem c1_counterexample :
    updateRecord [demoRecordA] "r1" ⟨some "hijacked", none⟩ =
      Except.ok [⟨"r1", "A", "alice", "pw1", "h1", 100, none, some "hijacked"⟩] ∧
    (⟨"r1", "A", "alice", "pw1", "h1", 100, none, some "hijacked"⟩ :
      CredentialRecord) ≠ demoRecordA := by decide

/-- C1 amended: `getHistory` exposes exactly the caller's records and
`clearHistory` removes only the caller's records, but the single and batch
update/delete operations are scoped by record id only, with no ownership
check: they leave untouched exactly the records whose id is not targeted,
regardless of owner. -/
theorem c1_ownership_amended :
    (∀ (u : User) (store : List CredentialRecord) (r : CredentialRecord),
      r ∈ okD (getHistory (some u) store) ↔ (r ∈ store ∧ r.user_id = u.id)) ∧
    (∀ (store : List CredentialRecord) (id : String) (upd : RecordUpdates)
        (r : CredentialRecord),
      r ∈ store → r.id ≠ id → r ∈ okD (updateRecord store id upd)) ∧
    (∀ (store : List CredentialRecord) (ids : List String) (g : Option String)
        (r : CredentialRecord),
      r ∈ store → ids.contains r.id = false → r ∈ okD (updateRecords store ids g)) ∧
    (∀ (store : List CredentialRecord) (id : String) (r : CredentialRecord),
      r ∈ store → r.id ≠ id → r ∈ okD (deleteRecord store id)) ∧
    (∀ (store : List CredentialRecord) (ids : List String) (r : CredentialRecord),
      r ∈ store → ids.contains r.id = false → r ∈ okD (deleteRecords store ids)) ∧
    (∀ (u : User) (store : List CredentialRecord) (r : CredentialRecord),
      r ∈ store → r.user_id ≠ u.id → r ∈ okD (clearHistory (some u) store)) := by
  refine ⟨?_, ?_, ?_, ?_, ?_, ?_⟩
  · intro u store r
    simp [getHistory, okD, List.mem_filter]
  · intro store id upd r hr hne
    have : (if r.id == id then applyUpdates r upd else r) = r := by
      simp [beq_eq_false_iff_ne.mpr hne]
    exact this ▸ List.mem_map_of_mem _ hr
  · intro store ids g r hr hno
    have : (if ids.contains r.id then
        { r with group := match g with | some x => some x | none => r.group }
      else r) = r := by
      simp only [hno]
      simp
    exact this ▸ List.mem_map_of_mem _ hr
  · intro store id r hr hne
    simp only [deleteRecord, okD, List.mem_filter]
    exact ⟨hr, by simp [bne_iff_ne, hne]⟩
  · intro store ids r hr hno
    simp only [deleteRecords, okD, List.mem_filter]
    exact ⟨hr, by simpa using hno⟩
  · intro u store r hr hne
    simp only [clearHistory, okD, List.mem_filter]
    exact ⟨hr, by simp [bne_iff_ne, hne]⟩

/-- C1 amended witness: A's record survives a delete that targets a
different id, and B's history does not expose A's record. -/
theorem c1_witness :
    demoRecordA ∈ okD (deleteRecord [demoRecordA, demoRecordB] "r2") ∧
    ¬ demoRecordA ∈ okD (getHistory (some ⟨"B", "bob"⟩) [demoRecordA, demoRecordB]) := by
  constructor
  · exact c1_ownership_amended.2.2.2.1 [demoRecordA, demoRecordB] "r2"
      demoRecordA (by decide) (by decide)
  · intro h
    have := (c1_ownership_amended.1 ⟨"B", "bob"⟩ [demoRecordA, demoRecordB]
      demoRecordA).mp h
    exact absurd this.2 (by decide)

/-! ## C10: admin seeding on login -/

/-- C10 counterexample: if the store already holds a user named "admin"
with a different password, a login attempt does not seed (the store is
unchanged) and admin/admin still fails afterwards. -/
theorem c10_counterexample :
    (login usersAdminSecret "admin" "admin" 0).1 = usersAdminSecret ∧
    (login usersAdminSecret "admin" "admin" 0).2 =
      Except.error ApiError.invalidCredentials := by decide

/-- C10 amended: every mock login, regardless of credentials and of whether
it succeeds, first seeds the default admin/admin account when no user named
"admin" exists; hence, provided no differently-passworded "admin" user
pre-existed, after any login attempt the credentials admin/admin
authenticate successfully. -/
theorem c10_admin_seed_amended (users : List MockUser) (u p : String)
    (now now2 : Int)
    (h : users.any (fun x => x.username == "admin") = false) :
    (login users u p now).1 = users ++ [defaultAdminUser] ∧
    ((login ((login users u p now).1) "admin" "admin" now2).2).isOk = true := by
  have hseed : seedAdmin users = users ++ [defaultAdminUser] := by
    simp [seedAdmin, h]
  have h1 : (login users u p now).1 = users ++ [defaultAdminUser] := by
    rw [← hseed]
    unfold login
    cases hfind : (seedAdmin users).find?
        (fun x => x.username == u && x.password == p) <;> simp [hfind]
  refine ⟨h1, ?_⟩
  rw [h1]
  have hseed2 : seedAdmin (users ++ [defaultAdminUser]) =
      users ++ [defaultAdminUser] := by
    simp [seedAdmin, defaultAdminUser]
  cases hfind : (users ++ [defaultAdminUser]).find?
      (fun x => x.username == "admin" && x.password == "admin") with
  | some x => simp [login, hseed2, hfind, Except.isOk, Except.toBool]
  | none =>
    exfalso
    have hall := List.find?_eq_none.mp hfind defaultAdminUser (by simp)
    simp [defaultAdminUser] at hall

/-- C10 amended witness: from an empty store, any failed login seeds the
admin account and admin/admin then logs in. -/
theorem c10_witness :
    (login [] "x" "y" 0).1 = [defaultAdminUser] ∧
    ((login ((login [] "x" "y" 0).1) "admin" "admin" 1).2).isOk = true := by
  have h := c10_admin_seed_amended [] "x" "y" 0 1 (by decide)
  simpa using h

/-! ## C4: distribution of the password index draw -/

theorem countMod_succ (N n i : Nat) :
    countMod (N + 1) n i = countMod N n i + (if N % n = i then 1 else 0) := by
  unfold countMod
  rw [Finset.range_succ, Finset.filter_insert]
  split_ifs with h
  · rw [Finset.card_insert_of_not_mem (fun hmem =>
      absurd (Finset.mem_range.mp (Finset.mem_filter.mp hmem).1) (lt_irrefl N))]
  · simp

/-- Exact weight of residue `i` among `{0, ..., N-1}` reduced mod `n`. -/
theorem countMod_eq (n i : Nat) (hn : 0 < n) (hi : i < n) :
    ∀ N, countMod N n i = N / n + if i < N % n then 1 else 0 := by
  intro N
  induction N with
  | zero => simp [countMod]
  | succ N ih =>
    rw [countMod_succ, ih]
    have key : N + 1 = (N % n + 1) + n * (N / n) := by
      have hdm := Nat.div_add_mod N n
      omega
    rcases Nat.lt_or_ge (N % n + 1) n with h | h
    · have hmod : (N + 1) % n = N % n + 1 := by
        rw [key, Nat.add_mul_mod_self_left, Nat.mod_eq_of_lt h]
      have hdiv : (N + 1) / n = N / n := by
        rw [key, Nat.add_mul_div_left _ _ hn, Nat.div_eq_of_lt h, Nat.zero_add]
      rw [hmod, hdiv]
      split_ifs <;> omega
    · have hr : N % n + 1 = n := by
        have := Nat.mod_lt N hn
        omega
      have hmod : (N + 1) % n = 0 := by
        rw [key, hr, Nat.add_mul_mod_self_left, Nat.mod_self]
      have hdiv : (N + 1) / n = N / n + 1 := by
        rw [key, hr, Nat.add_mul_div_left _ _ hn, Nat.div_self hn]
        omega
      rw [hmod, hdiv]
      split_ifs <;> omega

theorem charsetFor_pos (config : GenerateConfig) :
    0 < (charsetFor config).length := by
  simp only [charsetFor]
  split_ifs <;> first | decide | omega

/-- C4 counterexample: with all toggles off the charset has 26 characters
and 2^32 is not a multiple of 26, so the reduction `word % 26` gives index
0 strictly more weight than index 25 — the draws are not uniformly
distributed over the charset positions. -/
theorem c4_counterexample : drawCount cfgLowerOnly 0 ≠ drawCount cfgLowerOnly 25 := by
  have hlen : (charsetFor cfgLowerOnly).length = 26 := by decide
  unfold drawCount
  rw [hlen, countMod_eq 26 0 (by norm_num) (by norm_num),
      countMod_eq 26 25 (by norm_num) (by norm_num)]
  have h22 : (4294967296 : Nat) % 26 = 22 := by norm_num
  rw [h22]
  norm_num

/-- C4 amended: each draw reduces a uniform 32-bit word modulo the charset
length (which is one of 26, 36, 52, 62, 78, 88 depending on the toggles);
index `i` receives weight `2^32 / len`, plus one extra when
`i < 2^32 % len`.  None of the possible lengths divides 2^32, so index 0 is
always strictly favoured over the last index: the distribution is
near-uniform but not exactly uniform. -/
theorem c4_distribution_amended (config : GenerateConfig) (i : Nat) :
    ((charsetFor config).length = 26 ∨ (charsetFor config).length = 36 ∨
     (charsetFor config).length = 52 ∨ (charsetFor config).length = 62 ∨
     (charsetFor config).length = 78 ∨ (charsetFor config).length = 88) ∧
    drawCount config 0 = 4294967296 / (charsetFor config).length + 1 ∧
    drawCount config ((charsetFor config).length - 1) =
      4294967296 / (charsetFor config).length ∧
    (i < (charsetFor config).length →
      drawCount config i = 4294967296 / (charsetFor config).length +
        if i < 4294967296 % (charsetFor config).length then 1 else 0) := by
  have hlen : (charsetFor config).length = 26 ∨ (charsetFor config).length = 36 ∨
      (charsetFor config).length = 52 ∨ (charsetFor config).length = 62 ∨
      (charsetFor config).length = 78 ∨ (charsetFor config).length = 88 := by
    rcases config with ⟨un, ut, up, len, hu, hn, hs, rm, gp⟩
    cases hu <;> cases hn <;> cases hs <;> dsimp only [charsetFor] <;> decide
  refine ⟨hlen, ?_, ?_, ?_⟩
  · unfold drawCount
    rcases hlen with h | h | h | h | h | h <;>
      rw [h, countMod_eq _ 0 (by norm_num) (by norm_num)] <;> norm_num
  · unfold drawCount
    rcases hlen with h | h | h | h | h | h <;>
      rw [h, countMod_eq _ _ (by norm_num) (by norm_num)] <;> norm_num
  · intro hi
    unfold drawCount
    exact countMod_eq _ i (charsetFor_pos config) hi 4294967296

/-- C4 amended witness: index 5 of the 26-character charset receives the
extra unit of weight. -/
theorem c4_witness : drawCount cfgLowerOnly 5 = 4294967296 / 26 + 1 := by
  have h := (c4_distribution_amended cfgLowerOnly 5).2.2.2 (by decide)
  have hl : (charsetFor cfgLowerOnly).length = 26 := by decide
  rw [h, hl]
  norm_num

/-! ## C8: placeholders before wildcards -/

theorem digitChar_mem (n : Nat) : digitChar n ∈ digitChars := by
  unfold digitChar
  rcases Nat.lt_or_ge n digitChars.length with h | h
  · rw [List.getD_eq_getElem _ _ h]
    exact List.getElem_mem h
  · rw [List.getD_eq_default _ _ h]
    decide

theorem mem_natChars3 (n : Nat) (x : Char) (hx : x ∈ natChars3 n) :
    x ∈ digitChars := by
  unfold natChars3 at hx
  split_ifs at hx <;> simp at hx <;>
    first
      | (rcases hx with rfl | rfl | rfl <;> exact digitChar_mem _)
      | (rcases hx with rfl | rfl <;> exact digitChar_mem _)
      | (subst hx; exact digitChar_mem _)

theorem adj_no_wildcard :
    ∀ w ∈ ADJECTIVES, List.count '#' w = 0 ∧ List.count '?' w = 0 := by decide

theorem noun_no_wildcard :
    ∀ w ∈ NOUNS, List.count '#' w = 0 ∧ List.count '?' w = 0 := by decide

theorem count_getRandomAdjective (c : Char) (hc : c = '#' ∨ c = '?') (k : Nat) :
    List.count c (getRandomAdjective k) = 0 := by
  unfold getRandomAdjective
  have h : k % ADJECTIVES.length < ADJECTIVES.length := Nat.mod_lt _ (by decide)
  rw [List.getD_eq_getElem _ _ h]
  have hmem : ADJECTIVES[k % ADJECTIVES.length] ∈ ADJECTIVES :=
    List.getElem_mem h
  rcases hc with rfl | rfl
  · exact (adj_no_wildcard _ hmem).1
  · exact (adj_no_wildcard _ hmem).2

theorem count_getRandomNoun (c : Char) (hc : c = '#' ∨ c = '?') (k : Nat) :
    List.count c (getRandomNoun k) = 0 := by
  unfold getRandomNoun
  have h : k % NOUNS.length < NOUNS.length := Nat.mod_lt _ (by decide)
  rw [List.getD_eq_getElem _ _ h]
  have hmem : NOUNS[k % NOUNS.length] ∈ NOUNS := List.getElem_mem h
  rcases hc with rfl | rfl
  · exact (noun_no_wildcard _ hmem).1
  · exact (noun_no_wildcard _ hmem).2

theorem count_getRandomNumberChars (c : Char) (hc : c = '#' ∨ c = '?') (k : Nat) :
    List.count c (getRandomNumberChars k) = 0 := by
  unfold getRandomNumberChars
  rw [List.count_eq_zero]
  intro hmem
  have hd := mem_natChars3 _ _ hmem
  rcases hc with rfl | rfl <;> revert hd <;> decide

theorem count_replaceFirst (c : Char) (pat rep : List Char)
    (hpat : List.count c pat = 0) (hrep : List.count c rep = 0) :
    ∀ s : List Char, List.count c (replaceFirst s pat rep) = List.count c s := by
  intro s
  induction s with
  | nil => rfl
  | cons a rest ih =>
    by_cases h : pat.isPrefixOf (a :: rest)
    · have hp : pat <+: (a :: rest) := List.isPrefixOf_iff_prefix.mp h
      obtain ⟨t, ht⟩ := hp
      rw [show replaceFirst (a :: rest) pat rep =
          rep ++ (a :: rest).drop pat.length from by simp [replaceFirst, h]]
      rw [← ht, List.drop_left, List.count_append, List.count_append, hpat, hrep]
    · rw [show replaceFirst (a :: rest) pat rep =
          a :: replaceFirst rest pat rep from by simp [replaceFirst, h]]
      rw [List.count_cons, List.count_cons, ih]

theorem count_expandToken (c : Char) (tok : List Char) (pick : Nat → List Char)
    (htok : List.count c tok = 0) (hpick : ∀ k, List.count c (pick k) = 0) :
    ∀ (fuel k : Nat) (s : List Char),
      List.count c (expandToken tok pick fuel k s) = List.count c s := by
  intro fuel
  induction fuel with
  | zero => intro k s; rfl
  | succ fuel ih =>
    intro k s
    show List.count c (if hasSubstr s tok then
        expandToken tok pick fuel (k + 1) (replaceFirst s tok (pick k)) else s) =
      List.count c s
    split_ifs
    · rw [ih, count_replaceFirst c tok (pick k) htok (hpick k)]
    · rfl

theorem count_expandPlaceholders (c : Char) (hc : c = '#' ∨ c = '?')
    (o : UsernameOracle) (s : List Char) :
    List.count c (expandPlaceholders o s) = List.count c s := by
  have hA : List.count c tokAdjective = 0 := by rcases hc with rfl | rfl <;> decide
  have hN : List.count c tokNoun = 0 := by rcases hc with rfl | rfl <;> decide
  have hM : List.count c tokNumber = 0 := by rcases hc with rfl | rfl <;> decide
  simp only [expandPlaceholders]
  rw [count_expandToken c tokNumber _ hM
        (fun k => count_getRandomNumberChars c hc _),
      count_expandToken c tokNoun _ hN
        (fun k => count_getRandomNoun c hc _),
      count_expandToken c tokAdjective _ hA
        (fun k => count_getRandomAdjective c hc _)]

theorem getD_replaceWildcard (w : Char) (pick : Nat → Char) (d : Char) :
    ∀ (s : List Char) (k i : Nat), s.getD i d ≠ w →
      (replaceWildcard w pick k s).getD i d = s.getD i d := by
  intro s
  induction s with
  | nil => intro k i _; rfl
  | cons a rest ih =>
    intro k i h
    show (if a = w then pick k :: replaceWildcard w pick (k + 1) rest
          else a :: replaceWildcard w pick k rest).getD i d = (a :: rest).getD i d
    split_ifs with hw
    · cases i with
      | zero =>
        simp only [List.getD_cons_zero] at h
        exact absurd hw h
      | succ i =>
        simp only [List.getD_cons_succ]
        exact ih (k + 1) i (by simpa using h)
    · cases i with
      | zero => simp
      | succ i =>
        simp only [List.getD_cons_succ]
        exact ih k i (by simpa using h)

/-- C8: the synthesizer is wildcard substitution applied after full word
placeholder expansion; the expansion introduces no `#` or `?` characters
beyond those of the pattern itself (the word lists and the decimal digits
of a number contain neither), and wildcard substitution leaves every
position holding a character other than `#`/`?` unchanged — so characters
contributed by a word substitution are never reinterpreted as wildcards. -/
theorem c8_placeholder_then_wildcard (o : UsernameOracle) (pattern : List Char) :
    generateUsernameFromPattern o pattern =
      replaceWildcard '?' (fun k => getRandomLetter (o.letterPick k)) 0
        (replaceWildcard '#' (fun k => getRandomDigit (o.digitPick k)) 0
          (expandPlaceholders o
            (if pattern.isEmpty then defaultPatternChars else pattern))) ∧
    List.count '#' (expandPlaceholders o
        (if pattern.isEmpty then defaultPatternChars else pattern)) =
      List.count '#' (if pattern.isEmpty then defaultPatternChars else pattern) ∧
    List.count '?' (expandPlaceholders o
        (if pattern.isEmpty then defaultPatternChars else pattern)) =
      List.count '?' (if pattern.isEmpty then defaultPatternChars else pattern) ∧
    (∀ (i : Nat) (d : Char),
      (expandPlaceholders o
        (if pattern.isEmpty then defaultPatternChars else pattern)).getD i d ≠ '#' →
      (expandPlaceholders o
        (if pattern.isEmpty then defaultPatternChars else pattern)).getD i d ≠ '?' →
      (generateUsernameFromPattern o pattern).getD i d =
        (expandPlaceholders o
          (if pattern.isEmpty then defaultPatternChars else pattern)).getD i d) := by
  refine ⟨rfl, count_expandPlaceholders '#' (Or.inl rfl) o _,
    count_expandPlaceholders '?' (Or.inr rfl) o _, ?_⟩
  intro i d he1 he2
  have h1 := getD_replaceWildcard '#' (fun k => getRandomDigit (o.digitPick k)) d
    (expandPlaceholders o (if pattern.isEmpty then defaultPatternChars else pattern))
    0 i he1
  have h2 := getD_replaceWildcard '?' (fun k => getRandomLetter (o.letterPick k)) d
    (replaceWildcard '#' (fun k => getRandomDigit (o.digitPick k)) 0
      (expandPlaceholders o (if pattern.isEmpty then defaultPatternChars else pattern)))
    0 i (h1.symm ▸ he2)
  exact h2.trans h1

/-- C8 witness: on the concrete pattern `user_##` (no word placeholders)
the first character survives to the output. -/
theorem c8_witness :
    (generateUsernameFromPattern oracleZero patUserHashes).getD 0 ' ' = 'u' := by
  have h := (c8_placeholder_then_wildcard oracleZero patUserHashes).2.2.2 0 ' '
    (by decide) (by decide)
  rw [h]
  decide

/-! ## C9: grouped view -/

theorem dedupAcc_not_mem_seen :
    ∀ (l seen : List String) (x : String), x ∈ dedupAcc seen l → x ∉ seen := by
  intro l
  induction l with
  | nil => intro seen x hx; simp [dedupAcc] at hx
  | cons y ys ih =>
    intro seen x hx
    by_cases hy : y ∈ seen
    · rw [show dedupAcc seen (y :: ys) = dedupAcc seen ys from by
        simp [dedupAcc, hy]] at hx
      exact ih seen x hx
    · rw [show dedupAcc seen (y :: ys) = y :: dedupAcc (y :: seen) ys from by
        simp [dedupAcc, hy]] at hx
      rcases List.mem_cons.mp hx with rfl | hx2
      · exact hy
      · have h2 := ih (y :: seen) x hx2
        exact fun hxs => h2 (List.mem_cons_of_mem _ hxs)

theorem dedupAcc_congr :
    ∀ (l s₁ s₂ : List String), (∀ x, x ∈ s₁ ↔ x ∈ s₂) →
      dedupAcc s₁ l = dedupAcc s₂ l := by
  intro l
  induction l with
  | nil => intro s₁ s₂ _; rfl
  | cons y ys ih =>
    intro s₁ s₂ h
    by_cases hy : y ∈ s₁
    · rw [show dedupAcc s₁ (y :: ys) = dedupAcc s₁ ys from by simp [dedupAcc, hy],
          show dedupAcc s₂ (y :: ys) = dedupAcc s₂ ys from by
            simp [dedupAcc, (h y).mp hy]]
      exact ih s₁ s₂ h
    · have hy2 : y ∉ s₂ := fun hc => hy ((h y).mpr hc)
      rw [show dedupAcc s₁ (y :: ys) = y :: dedupAcc (y :: s₁) ys from by
            simp [dedupAcc, hy],
          show dedupAcc s₂ (y :: ys) = y :: dedupAcc (y :: s₂) ys from by
            simp [dedupAcc, hy2]]
      congr 1
      apply ih
      intro x
      simp [List.mem_cons, h x]

theorem dedupAcc_mem :
    ∀ (l seen : List String) (x : String), x ∈ dedupAcc seen l → x ∈ l := by
  intro l
  induction l with
  | nil => intro seen x hx; simp [dedupAcc] at hx
  | cons y ys ih =>
    intro seen x hx
    by_cases hy : y ∈ seen
    · rw [show dedupAcc seen (y :: ys) = dedupAcc seen ys from by
        simp [dedupAcc, hy]] at hx
      exact List.mem_cons_of_mem _ (ih seen x hx)
    · rw [show dedupAcc seen (y :: ys) = y :: dedupAcc (y :: seen) ys from by
        simp [dedupAcc, hy]] at hx
      rcases List.mem_cons.mp hx with rfl | hx2
      · exact List.mem_cons_self _ _
      · exact List.mem_cons_of_mem _ (ih (y :: seen) x hx2)

/-- Characterization of the accumulated JS object after folding a record
sequence into an arbitrary starting object: existing keys receive the
matching records appended, and the new keys appear after them, in first
occurrence order, each holding the matching records in sequence order. -/
theorem foldl_insertOwn_general :
    ∀ (recs : List CredentialRecord) (m : List (String × List CredentialRecord)),
      recs.foldl (fun m2 r => insertOwn m2 (labelOf r) r) m =
        m.map (fun p => (p.1, p.2 ++ recs.filter (fun rr => labelOf rr == p.1))) ++
        (dedupAcc (m.map Prod.fst) (recs.map labelOf)).map
          (fun g => (g, recs.filter (fun rr => labelOf rr == g))) := by
  intro recs
  induction recs with
  | nil =>
    intro m
    simp [dedupAcc]
  | cons r rest ih =>
    intro m
    rw [List.foldl_cons, ih (insertOwn m (labelOf r) r)]
    by_cases hmem : m.any (fun p => p.1 == labelOf r) = true
    · have hkeyL : labelOf r ∈ m.map Prod.fst := by
        rcases List.any_eq_true.mp hmem with ⟨p, hp, hpe⟩
        exact List.mem_map.mpr ⟨p, hp, beq_iff_eq.mp hpe⟩
      have hobj : insertOwn m (labelOf r) r =
          m.map (fun p => if p.1 == labelOf r then (p.1, p.2 ++ [r]) else p) := by
        simp [insertOwn, hmem]
      have hkeys : (insertOwn m (labelOf r) r).map Prod.fst = m.map Prod.fst := by
        rw [hobj, List.map_map]
        apply List.map_congr_left
        intro p _
        by_cases hp : p.1 = labelOf r <;> simp [hp]
      have hded : dedupAcc (m.map Prod.fst) ((r :: rest).map labelOf) =
          dedupAcc (m.map Prod.fst) (rest.map labelOf) := by
        simp [dedupAcc, hkeyL]
      rw [hkeys, hded, hobj, List.map_map]
      congr 1
      · apply List.map_congr_left
        intro p hp
        by_cases hpe : (p.1 == labelOf r) = true
        · have he : (labelOf r == p.1) = true := by
            rw [beq_iff_eq] at hpe ⊢
            exact hpe.symm
          simp [Function.comp, hpe, List.filter_cons, he]
        · have hne : ¬ (labelOf r == p.1) = true := by
            intro hc
            rw [beq_iff_eq] at hc
            exact hpe (by rw [beq_iff_eq]; exact hc.symm)
          simp [Function.comp, hpe, List.filter_cons, hne]
      · apply List.map_congr_left
        intro g hg
        have hgn : g ∉ m.map Prod.fst := dedupAcc_not_mem_seen _ _ _ hg
        have hne : ¬ (labelOf r == g) = true := by
          intro hc
          rw [beq_iff_eq] at hc
          exact hgn (hc ▸ hkeyL)
        simp [List.filter_cons, hne]
    · have hkeyL : labelOf r ∉ m.map Prod.fst := by
        intro hc
        rcases List.mem_map.mp hc with ⟨p, hp, hpe⟩
        exact hmem (List.any_eq_true.mpr ⟨p, hp, beq_iff_eq.mpr hpe⟩)
      have hobj : insertOwn m (labelOf r) r = m ++ [(labelOf r, [r])] := by
        simp only [insertOwn]
        rw [if_neg (by simpa using hmem)]
      have hkeys : (insertOwn m (labelOf r) r).map Prod.fst =
          m.map Prod.fst ++ [labelOf r] := by
        rw [hobj, List.map_append]
        rfl
      have hded : dedupAcc (m.map Prod.fst) ((r :: rest).map labelOf) =
          labelOf r :: dedupAcc (labelOf r :: m.map Prod.fst) (rest.map labelOf) := by
        simp [dedupAcc, hkeyL]
      have hded2 : dedupAcc (m.map Prod.fst ++ [labelOf r]) (rest.map labelOf) =
          dedupAcc (labelOf r :: m.map Prod.fst) (rest.map labelOf) := by
        apply dedupAcc_congr
        intro x
        simp [List.mem_append, List.mem_cons, or_comm]
      rw [hkeys, hded, hded2, hobj, List.map_append]
      rw [List.append_assoc]
      congr 1
      · apply List.map_congr_left
        intro p hp
        have hne : ¬ (labelOf r == p.1) = true := by
          intro hc
          rw [beq_iff_eq] at hc
          exact hkeyL (hc ▸ List.mem_map.mpr ⟨p, hp, rfl⟩)
        simp [List.filter_cons, hne]
      · simp only [List.map_cons, List.map_nil, List.singleton_append]
        congr 1
        · simp [List.filter_cons]
        · apply List.map_congr_left
          intro g hg
          have hgn := dedupAcc_not_mem_seen _ _ _ hg
          have hne : ¬ (labelOf r == g) = true := by
            intro hc
            rw [beq_iff_eq] at hc
            exact hgn (hc ▸ List.mem_cons_self _ _)
          simp [List.filter_cons, hne]

/-- On a label naming no `Object.prototype` member, the faithful step does
not throw and behaves as the plain own-property accumulation. -/
theorem objInsert_eq_insertOwn (props : List (String × List CredentialRecord))
    (key : String) (r : CredentialRecord)
    (hk : objectPrototypeKeys.contains key = false) :
    objInsert props key r = some (insertOwn props key r) := by
  cases hfind : props.find? (fun p => p.1 == key) with
  | some q =>
    have hq := List.find?_some hfind
    have hmemq := List.mem_of_find?_eq_some hfind
    have hown : props.any (fun p => p.1 == key) = true :=
      List.any_eq_true.mpr ⟨q, hmemq, hq⟩
    have htr : jsTruthy props key = true := by
      simp [jsTruthy, ownValue, hfind]
    simp [objInsert, insertOwn, htr, ownValue, hfind, hown]
  | none =>
    have hnot : ∀ p ∈ props, ¬ (p.1 == key) = true := List.find?_eq_none.mp hfind
    have hown : props.any (fun p => p.1 == key) = false := by
      cases hany : props.any (fun p => p.1 == key) with
      | false => rfl
      | true =>
        rcases List.any_eq_true.mp hany with ⟨p, hp, hpe⟩
        exact absurd hpe (hnot p hp)
    have htr : jsTruthy props key = false := by
      unfold jsTruthy ownValue
      rw [hfind, hk]
      rfl
    have hfind1 : ∀ l : List (String × List CredentialRecord),
        (∀ p ∈ l, ¬ (p.1 == key) = true) →
        (l ++ [(key, ([] : List CredentialRecord))]).find? (fun p => p.1 == key) =
          some (key, []) := by
      intro l
      induction l with
      | nil => intro _; simp [List.find?]
      | cons a t ih =>
        intro hl
        rw [List.cons_append, List.find?_cons_of_neg _
          (by simpa using hl a (List.mem_cons_self _ _))]
        exact ih (fun p hp => hl p (List.mem_cons_of_mem _ hp))
    simp only [objInsert, insertOwn, htr, hown, Bool.not_false, if_true,
      Bool.false_eq_true, if_false, ownValue, hfind1 props hnot]
    congr 1
    rw [List.map_append]
    have hid : props.map
        (fun p => if p.1 == key then (p.1, p.2 ++ [r]) else p) = props := by
      calc props.map (fun p => if p.1 == key then (p.1, p.2 ++ [r]) else p)
          = props.map (fun p => p) := by
            apply List.map_congr_left
            intro p hp
            simp [hnot p hp]
        _ = props := by simp
    rw [hid]
    simp

/-- Once a TypeError has been thrown, the rest of the `forEach` is dead. -/
theorem groupedStep_none (recs : List CredentialRecord) :
    recs.foldl (fun m r =>
      match m with
      | none => none
      | some m2 => objInsert m2 (labelOf r) r)
      (none : Option (List (String × List CredentialRecord))) = none := by
  induction recs with
  | nil => rfl
  | cons r rest ih => exact ih

/-- The accumulation step keeps the invariant that no own key of the
object names an `Object.prototype` member. -/
theorem insertOwn_keys (props : List (String × List CredentialRecord))
    (key : String) (r : CredentialRecord)
    (hprops : ∀ p ∈ props, objectPrototypeKeys.contains p.1 = false)
    (hk : objectPrototypeKeys.contains key = false) :
    ∀ p ∈ insertOwn props key r, objectPrototypeKeys.contains p.1 = false := by
  intro p hp
  unfold insertOwn at hp
  split_ifs at hp with hc
  · rcases List.mem_map.mp hp with ⟨q, hq, rfl⟩
    by_cases hqe : (q.1 == key) = true
    · simpa [hqe] using hprops q hq
    · simpa [hqe] using hprops q hq
  · rcases List.mem_append.mp hp with hp1 | hp1
    · exact hprops p hp1
    · rcases List.mem_singleton.mp hp1 with rfl
      exact hk

/-- When every label avoids `Object.prototype` member names, the fallible
accumulation never throws and equals the plain own-property fold. -/
theorem groupedProps_eq_pure :
    ∀ (recs : List CredentialRecord)
      (m : List (String × List CredentialRecord)),
      (∀ r ∈ recs, objectPrototypeKeys.contains (labelOf r) = false) →
      recs.foldl (fun m2 r =>
        match m2 with
        | none => none
        | some m3 => objInsert m3 (labelOf r) r) (some m) =
      some (recs.foldl (fun m2 r => insertOwn m2 (labelOf r) r) m) := by
  intro recs
  induction recs with
  | nil => intro m _; rfl
  | cons r rest ih =>
    intro m h
    show rest.foldl _ (objInsert m (labelOf r) r) = _
    rw [objInsert_eq_insertOwn m (labelOf r) r (h r (List.mem_cons_self _ _))]
    exact ih (insertOwn m (labelOf r) r)
      (fun r2 h2 => h r2 (List.mem_cons_of_mem _ h2))

/-- A record whose label names an `Object.prototype` member makes the
accumulation throw: the whole fold yields `none`. -/
theorem groupedProps_crash_general :
    ∀ (recs : List CredentialRecord)
      (m : List (String × List CredentialRecord)),
      (∀ p ∈ m, objectPrototypeKeys.contains p.1 = false) →
      (∃ r ∈ recs, objectPrototypeKeys.contains (labelOf r) = true) →
      recs.foldl (fun m2 r =>
        match m2 with
        | none => none
        | some m3 => objInsert m3 (labelOf r) r) (some m) = none := by
  intro recs
  induction recs with
  | nil => intro m _ hex; simp at hex
  | cons r rest ih =>
    intro m hm hex
    by_cases hr : objectPrototypeKeys.contains (labelOf r) = true
    · have hfind : m.find? (fun p => p.1 == labelOf r) = none := by
        rw [List.find?_eq_none]
        intro p hp hc
        have hpe : p.1 = labelOf r := beq_iff_eq.mp hc
        have hcf := hm p hp
        rw [hpe] at hcf
        rw [hcf] at hr
        exact Bool.false_ne_true hr
      have htr : jsTruthy m (labelOf r) = true := by
        unfold jsTruthy
        rw [hr]
        simp
      have hstep : objInsert m (labelOf r) r = none := by
        simp [objInsert, htr, ownValue, hfind]
      show rest.foldl _ (objInsert m (labelOf r) r) = none
      rw [hstep]
      exact groupedStep_none rest
    · have hr2 : objectPrototypeKeys.contains (labelOf r) = false := by
        simpa using hr
      show rest.foldl _ (objInsert m (labelOf r) r) = none
      rw [objInsert_eq_insertOwn m (labelOf r) r hr2]
      apply ih (insertOwn m (labelOf r) r) (insertOwn_keys m _ r hm hr2)
      rcases hex with ⟨r2, hr2mem, hr2p⟩
      rcases List.mem_cons.mp hr2mem with rfl | hmem2
      · exact absurd hr2p hr
      · exact ⟨r2, hmem2, hr2p⟩

/-- When no label names an `Object.prototype` member, the accumulated
object holds, for each distinct label in first occurrence order, exactly
the records bearing that label. -/
theorem groupedProps_characterization (recs : List CredentialRecord)
    (h : ∀ r ∈ recs, objectPrototypeKeys.contains (labelOf r) = false) :
    groupedProps recs = some ((firstOccurrences (recs.map labelOf)).map
      (fun g => (g, recs.filter (fun rr => labelOf rr == g)))) := by
  unfold groupedProps
  rw [groupedProps_eq_pure recs [] h]
  congr 1
  have h2 := foldl_insertOwn_general recs []
  simpa [firstOccurrences] using h2

/-- C9 counterexample: `Object.entries` orders array-index-like keys first,
numerically.  With group labels "1" then "0" the grouped view iterates
["0", "1"], not the first-occurrence order ["1", "0"] the claim states. -/
theorem c9_counterexample :
    (groupedRecords [recNum1, recNum0]).map (List.map Prod.fst) =
      some ["0", "1"] ∧
    firstOccurrences ([recNum1, recNum0].map labelOf) = ["1", "0"] ∧
    (groupedRecords [recNum1, recNum0]).map (List.map Prod.fst) ≠
      some (firstOccurrences ([recNum1, recNum0].map labelOf)) := by decide

/-- C9 amended: the grouped view partitions the sequence by group label
(substituting "Uncategorized" for a missing or empty group).  When no
label is a canonical array-index string nor names an `Object.prototype`
member, iteration order is the insertion order of each group's first
occurrence, each group holding exactly its records in sequence order.
Labels that are canonical array-index strings are instead hoisted to the
front in ascending numeric order (JS object property order), and a label
naming an `Object.prototype` member ("toString", "constructor",
"__proto__", ...) makes the accumulation throw a TypeError, because
`if (!groups[g])` sees the truthy inherited member, skips initialization,
and `groups[g].push` is called on a non-array. -/
theorem c9_grouping_amended :
    (∀ recs : List CredentialRecord,
      (∀ r ∈ recs, isArrayIndexKey (labelOf r) = false) →
      (∀ r ∈ recs, objectPrototypeKeys.contains (labelOf r) = false) →
      groupedRecords recs = some ((firstOccurrences (recs.map labelOf)).map
        (fun g => (g, recs.filter (fun rr => labelOf rr == g))))) ∧
    (∀ recs : List CredentialRecord,
      (∃ r ∈ recs, objectPrototypeKeys.contains (labelOf r) = true) →
      groupedRecords recs = none) := by
  constructor
  · intro recs hidx hproto
    unfold groupedRecords
    rw [groupedProps_characterization recs hproto]
    simp only [Option.map_some']
    congr 1
    unfold entriesOf
    have hkeys : ∀ p ∈ (firstOccurrences (recs.map labelOf)).map
        (fun g => (g, recs.filter (fun rr => labelOf rr == g))),
        isArrayIndexKey p.1 = false := by
      intro p hp
      rcases List.mem_map.mp hp with ⟨g, hg, rfl⟩
      rcases List.mem_map.mp (dedupAcc_mem _ _ _ hg) with ⟨r, hr, rfl⟩
      exact hidx r hr
    have h1 : ((firstOccurrences (recs.map labelOf)).map
        (fun g => (g, recs.filter (fun rr => labelOf rr == g)))).filter
          (fun p => isArrayIndexKey p.1) = [] := by
      rw [List.filter_eq_nil_iff]
      intro p hp
      simp [hkeys p hp]
    have h2 : ((firstOccurrences (recs.map labelOf)).map
        (fun g => (g, recs.filter (fun rr => labelOf rr == g)))).filter
          (fun p => !isArrayIndexKey p.1) = (firstOccurrences (recs.map labelOf)).map
        (fun g => (g, recs.filter (fun rr => labelOf rr == g))) := by
      rw [List.filter_eq_self]
      intro p hp
      simp [hkeys p hp]
    rw [h1, h2]
    rfl
  · intro recs hex
    unfold groupedRecords
    rw [show groupedProps recs = none from
      groupedProps_crash_general recs [] (by simp) hex]
    rfl

/-- C9 amended witness: ordinary labels iterate in first-occurrence order
with the no-group record under "Uncategorized", and a record grouped as
"toString" crashes the grouped view. -/
theorem c9_witness :
    groupedRecords [recWork, recNoGroup] =
      some [("Work", [recWork]), ("Uncategorized", [recNoGroup])] ∧
    groupedRecords [recProto] = none := by
  constructor
  · have h := c9_grouping_amended.1 [recWork, recNoGroup] (by decide) (by decide)
    rw [h]
    decide
  · exact c9_grouping_amended.2 [recProto] ⟨recProto, by decide, by decide⟩
